import Mathlib

/-
Verification of the streak-computation and calendar-grid-rendering core of
paperforest.py against its specification.

Shallow embedding conventions.

Dates are modelled as integers: the proleptic Gregorian ordinal of the date,
exactly as returned by the Python expression date.toordinal. Under this
encoding, date plus timedelta of one day is the successor integer, Python
date comparison is integer comparison, and date.weekday with Monday equal
to 0 is the function weekday below, since ordinal 1 under the proleptic
Gregorian calendar used by Python dates is a Monday.

The sqlite-backed aggregation that produces per-day event counts is an
external collaborator; the core functions receive its output. compute_streaks
receives the list of distinct logged days, as in the source. render_forest
receives the per-day count map over the window as a total function on
integer dates, which models the dense dict the source builds on lines
170 to 178: every access the source makes to that dict is guarded by a
membership test for the key range from start to end, which the embedding
reproduces as explicit interval bounds, so values of the function outside
the window never influence a result.

The source reads date.today inside compute_streaks and render_forest; the
embedding makes that ambient read an explicit parameter named today, so
claims about (in)dependence on the ambient date become statements about
that parameter.

The two while loops of the source and the backward walk of render_forest
are embedded with an explicit fuel argument that the call sites instantiate
with a provably sufficient bound (the loops of the source terminate because
each iteration moves to a fresh day of a finite set or strictly towards the
window start); lemmas below characterize the walks for any sufficient fuel,
showing the exhaustion branch is unreachable at the chosen bounds.

random.Random with a fixed integer seed is part of the Python standard
library, not of this repository; it is embedded faithfully as the MT19937
generator that CPython implements: init_genrand, init_by_array seeding from
the integer key, the twist, tempering, getrandbits, rejection-sampling
_randbelow, and choice. The 624-word generator state is encoded as a single
natural number in base 2 to the 32, with mtGet and mtSet reading and
writing one 32-bit digit. The embedding was checked word for word against
CPython 3.11 for seed 19: the seeded state, the first outputs, and the
_randbelow results for the palette sizes 2, 20, 10 and 8 agree.
-/

/-! Constants of the source: the fixed seed and the tier palettes. -/

def RAND_SEED : ℕ := 19

def SEED_LIST : List String := ["🫘", "🌰"]

def SAPLING_LIST : List String :=
  ["🌱", "🌱", "🌱", "🌱", "🌱", "🌱", "🌱", "🌱", "🌱", "🌱",
   "🌿", "🍃", "☘️", "🌿", "🍃", "☘️", "🌿", "🍃", "☘️", "🍀"]

def TREE_LIST : List String :=
  ["🌳", "🌲", "🌳", "🌲", "🌳", "🌲", "🌳", "🌲", "🍄", "🍄‍🟫"]

def BUG_LIST : List String :=
  ["🐛", "🐞", "🦋", "🐝", "🐜", "🦗", "🐌", "🕷️"]

def WOODLAND_ANIMAL_LIST : List String :=
  ["🐿️", "🦡", "🦔", "🦌", "🐭", "🦊", "🐻", "🐺", "🦉", "🦅"]

/-! MT19937 as implemented by CPython, state as one natural number whose
base 2 to the 32 digits are the 624 generator words. -/

def U32 : ℕ := 4294967296

/-- Read 32-bit word i of a state encoded in base 2 to the 32. -/
def mtGet (s i : ℕ) : ℕ := s / U32 ^ i % U32

/-- Overwrite 32-bit word i of an encoded state with v mod 2 to the 32. -/
def mtSet (s i v : ℕ) : ℕ := s - s / U32 ^ i % U32 * U32 ^ i + v % U32 * U32 ^ i

/-- The init_genrand seeding loop of MT19937. -/
def initGenrand (seed : ℕ) : ℕ :=
  (List.range 623).foldl
    (fun mt j =>
      let i := j + 1
      mtSet mt i ((1812433253 * ((mtGet mt (i - 1)) ^^^ ((mtGet mt (i - 1)) >>> 30)) + i) % U32))
    (mtSet 0 0 (seed % U32))

/-- First mixing loop of init_by_array; the state triple is the word array
together with the running indices i and j of the C code. -/
def seedLoop1 (key : List ℕ) (st : ℕ × ℕ × ℕ) : ℕ × ℕ × ℕ :=
  (List.range (max 624 key.length)).foldl
    (fun st _ =>
      let mt := st.1
      let i := st.2.1
      let j := st.2.2
      let prod := (((mtGet mt (i - 1)) ^^^ ((mtGet mt (i - 1)) >>> 30)) * 1664525) % U32
      let mt := mtSet mt i ((((mtGet mt i) ^^^ prod) + key.getD j 0 + j) % U32)
      let i := i + 1
      let j := j + 1
      let p := if i ≥ 624 then (mtSet mt 0 (mtGet mt 623), 1) else (mt, i)
      (p.1, p.2, if j ≥ key.length then 0 else j))
    st

/-- Second mixing loop of init_by_array; subtraction of the index is the
32-bit wrapping subtraction of the C code. -/
def seedLoop2 (st : ℕ × ℕ) : ℕ × ℕ :=
  (List.range 623).foldl
    (fun st _ =>
      let mt := st.1
      let i := st.2
      let prod := (((mtGet mt (i - 1)) ^^^ ((mtGet mt (i - 1)) >>> 30)) * 1566083941) % U32
      let mt := mtSet mt i ((((mtGet mt i) ^^^ prod) + U32 - i % U32) % U32)
      let i := i + 1
      if i ≥ 624 then (mtSet mt 0 (mtGet mt 623), 1) else (mt, i))
    st

/-- init_by_array of MT19937: init_genrand with 19650218, the two mixing
loops (the second continues with the index where the first stopped), then
word 0 is forced to 2 to the 31. -/
def initByArray (key : List ℕ) : ℕ :=
  let s1 := seedLoop1 key (initGenrand 19650218, 1, 0)
  let s2 := seedLoop2 (s1.1, s1.2.1)
  mtSet s2.1 0 2147483648

/-- The batch regeneration of all 624 words. -/
def twist (mt : ℕ) : ℕ :=
  (List.range 624).foldl
    (fun m i =>
      let y := ((mtGet m i) &&& 2147483648) ||| ((mtGet m ((i + 1) % 624)) &&& 2147483647)
      let v := (mtGet m ((i + 397) % 624)) ^^^ (y >>> 1) ^^^ (if y % 2 = 1 then 2567483615 else 0)
      mtSet m i v)
    mt

/-- Tempered output of the word at idx, assuming idx is below 624. -/
def genrandAux (mt idx : ℕ) : ℕ × ℕ × ℕ :=
  let y := mtGet mt idx
  let y := y ^^^ (y >>> 11)
  let y := y ^^^ ((y <<< 7) &&& 2636928640)
  let y := y ^^^ ((y <<< 15) &&& 4022730752)
  let y := y ^^^ (y >>> 18)
  (y, mt, idx + 1)

/-- genrand_uint32: twist when the index reaches 624, then temper and
advance. The pair is the word blob and the index. -/
def genrand (st : ℕ × ℕ) : ℕ × ℕ × ℕ :=
  if st.2 ≥ 624 then genrandAux (twist st.1) 0 else genrandAux st.1 st.2

/-- getrandbits for k at most 32: the top k bits of one generator output. -/
def getrandbits (st : ℕ × ℕ) (k : ℕ) : ℕ × ℕ × ℕ :=
  let r := genrand st
  (r.1 >>> (32 - k), r.2)

/-- The rejection loop of _randbelow. CPython loops until a draw is below n;
that loop terminates with probability one but not provably, so the embedding
carries fuel, returning 0 (still below n) if fuel runs out. -/
def randbelowGo (n k : ℕ) : ℕ → ℕ × ℕ → ℕ × ℕ × ℕ
  | 0, st => (0, st)
  | fuel + 1, st =>
    let r := getrandbits st k
    if n ≤ r.1 then randbelowGo n k fuel r.2 else r

/-- The state of random.Random(seed) right after seeding: the key is the
sequence of 32-bit little-endian digits of the seed, and the output index
starts at 624 so the first draw twists. -/
def pyRandomInit (seed : ℕ) : ℕ × ℕ := (initByArray [seed % U32], 624)

/-- _randbelow(n): draw bit_length n bits until the value is below n. -/
def randbelow (st : ℕ × ℕ) (n : ℕ) : ℕ × ℕ × ℕ :=
  randbelowGo n (if n = 0 then 0 else Nat.log2 n + 1) 64 st

/-- random.Random(seed).choice(lst): the element at index _randbelow(len). -/
def pyChoice (seed : ℕ) (lst : List String) : String :=
  (lst.getD ((randbelow (pyRandomInit seed) lst.length).1) "")

/-- stage_for_count of the source: the empty glyph for n at most 0, then one
tier per streak magnitude, the animal tier for everything from 5 up, each
pick made by a fresh Random(RAND_SEED).choice. -/
def stage_for_count (n : ℤ) : String :=
  if n ≤ 0 then "."
  else if n = 1 then pyChoice RAND_SEED SEED_LIST
  else if n = 2 then pyChoice RAND_SEED SAPLING_LIST
  else if n = 3 then pyChoice RAND_SEED TREE_LIST
  else if n = 4 then pyChoice RAND_SEED BUG_LIST
  else pyChoice RAND_SEED WOODLAND_ANIMAL_LIST

/-! The streak calculator, compute_streaks of the source. -/

/-- The backward while loop of compute_streaks: while cur minus one day is
in the set, step back and count. Fuel bounds the iterations; every call
below passes the cardinality of the set, which lemma backWalk_spec shows
is enough for the exhaustion branch never to be taken. -/
def backWalk (s : Finset ℤ) : ℕ → ℤ → ℕ → ℕ
  | 0, _, acc => acc
  | fuel + 1, cur, acc =>
    if cur - 1 ∈ s then backWalk s fuel (cur - 1) (acc + 1) else acc

/-- The forward while loop of the longest-streak scan: while cur plus one
day is in the set, step forward and count. -/
def fwdWalk (s : Finset ℤ) : ℕ → ℤ → ℕ → ℕ
  | 0, _, run => run
  | fuel + 1, cur, run =>
    if cur + 1 ∈ s then fwdWalk s fuel (cur + 1) (run + 1) else run

/-- The longest-streak scan of compute_streaks: fold over the day list,
and at every run start (a day whose predecessor is not in the set) take the
maximum of the accumulator and the forward run length from that day. -/
def longestFold (s : Finset ℤ) (l : List ℤ) (a : ℕ) : ℕ :=
  l.foldl
    (fun longest d =>
      if d - 1 ∉ s then max longest (fwdWalk s s.card d 1) else longest) a

/-- compute_streaks of the source. The list of distinct logged days is the
first argument; today is the ambient date the source reads via date.today,
made explicit here. Returns the pair of current and longest streak. -/
def compute_streaks (days : List ℤ) (today : ℤ) : ℕ × ℕ :=
  if days = [] then (0, 0)
  else
    let day_set := days.toFinset
    let longest := longestFold day_set days 1
    if today ∈ day_set then (backWalk day_set day_set.card today 1, longest)
    else if today - 1 ∈ day_set then (backWalk day_set day_set.card (today - 1) 1, longest)
    else (0, longest)

/-! The per-day streak pass and the grid renderer, render_forest of the
source. -/

/-- The inner while loop of the per-day streak pass in render_forest: while
the previous day is a key of the count map (that is, lies in the window
from start to endd) and its stored count is positive, step back and count.
The call sites pass fuel equal to the distance from the walk origin to
start, which lemma walkBack_spec shows is enough. -/
def walkBack (start endd : ℤ) (counts : ℤ → ℕ) : ℕ → ℤ → ℕ → ℕ
  | 0, _, acc => acc
  | fuel + 1, cur, acc =>
    if start ≤ cur - 1 ∧ cur - 1 ≤ endd ∧ 0 < counts (cur - 1) then
      walkBack start endd counts fuel (cur - 1) (acc + 1)
    else acc

/-- One iteration of the destructive streak pass of render_forest, lines
180 to 187 of the source: day i of the window is day start plus i; its
stored count is overwritten by day_streak plus one if positive, else 0. -/
def spStep (start endd : ℤ) (counts : ℤ → ℕ) (i : ℕ) : ℤ → ℕ :=
  Function.update counts (start + (i : ℤ))
    (if 0 < counts (start + (i : ℤ)) then
      walkBack start endd counts i (start + (i : ℤ)) 0 + 1
    else 0)

/-- The full destructive streak pass: iterate spStep over the window keys
in chronological order, which is the insertion order of the dict the source
iterates, mutating the map in place as the source does. -/
def streakPass (start endd : ℤ) (counts0 : ℤ → ℕ) : ℤ → ℕ :=
  (List.range (endd - start + 1).toNat).foldl (spStep start endd) counts0

/-- The per-day local streak computed from an unmodified copy of the count
map: 0 on an inactive day, otherwise one plus the backward walk from the
day over the original counts. The refinement claim compares the in-place
pass against this function. -/
def dayStreakPure (start endd : ℤ) (counts0 : ℤ → ℕ) (d : ℤ) : ℕ :=
  if 0 < counts0 d then walkBack start endd counts0 ((d - start).toNat) d 0 + 1 else 0

/-- Python date.weekday on ordinals: ordinal 1 is a Monday, Monday is 0. -/
def weekday (d : ℤ) : ℤ := (d - 1) % 7

/-- start_aligned of the source: start shifted back by its weekday, landing
on the most recent Monday on or before start. -/
def startAligned (start : ℤ) : ℤ := start - (weekday start - 0) % 7

/-- days_total of the source: days from start_aligned through today,
inclusive; a run over an empty range when the window is empty. -/
def daysTotal (start today : ℤ) : ℕ := (today - startAligned start + 1).toNat

/-- cols of the source: days_total plus 6, integer-divided by 7. -/
def gridCols (start today : ℤ) : ℕ := (daysTotal start today + 6) / 7

/-- grid[r][c] = v of the source; out-of-range indices never occur at the
call sites, as proved below. -/
def gridSet (g : List (List String)) (r c : ℕ) (v : String) : List (List String) :=
  g.set r ((g.getD r []).set c v)

/-- Read cell (r, c) of a grid. -/
def cellAt (g : List (List String)) (r c : ℕ) : String := (g.getD r []).getD c " "

/-- The value the source writes for the day d: blank when d is outside the
window, else the stage symbol of the stored streak value. -/
def cellValue (counts : ℤ → ℕ) (start today d : ℤ) : String :=
  if d < start ∨ today < d then " " else stage_for_count ((counts d : ℤ))

/-- One iteration of the grid-filling loop of the source: day i of the
aligned range goes to row weekday and column i div 7. -/
def renderStep (counts : ℤ → ℕ) (start today : ℤ)
    (grid : List (List String)) (i : ℕ) : List (List String) :=
  gridSet grid ((weekday (startAligned start + (i : ℤ))).toNat) (i / 7)
    (cellValue counts start today (startAligned start + (i : ℤ)))

/-- render_forest of the source, as the grid of cells it assembles (the
final string join with weekday labels carries no further logic). The window
is end = today and start = today minus weeks times 7 minus 1 days; the count
map is first overwritten by the streak pass, then each day of the aligned
range is placed on the 7 by cols grid. -/
def render_forest (counts0 : ℤ → ℕ) (weeks today : ℤ) : List (List String) :=
  let start := today - (weeks * 7 - 1)
  (List.range (daysTotal start today)).foldl
    (renderStep (streakPass start today counts0) start today)
    (List.replicate 7 (List.replicate (gridCols start today) " "))

/-- The count map of the worked example of the spec: one event on each of
2024-01-01, 2024-01-02 and 2024-01-04 (ordinals 738886, 738887, 738889),
none on 2024-01-03 (ordinal 738888). -/
def exampleCounts : ℤ → ℕ :=
  fun d => if d = 738886 ∨ d = 738887 ∨ d = 738889 then 1 else 0

/-! Sanity examples evaluating the embedding on concrete inputs. -/

example : compute_streaks [738886, 738887, 738889] 738889 = (1, 2) := by decide

example : compute_streaks [] 738889 = (0, 0) := by decide

example : streakPass 738886 738889 exampleCounts 738887 = 2 := by decide

example : stage_for_count 0 = "." := by rfl

/-! Characterizations of the three embedded while loops. Each lemma holds
for any fuel at least the stated bound, which shows the fuel-exhaustion
branch is unreachable at the bounds the call sites pass. -/

theorem backFilter_card_lt (s : Finset ℤ) (cur : ℤ) (h : cur - 1 ∈ s) :
    (s.filter (fun x => x < cur - 1)).card < (s.filter (fun x => x < cur)).card := by
  apply Finset.card_lt_card
  refine (Finset.ssubset_iff_of_subset ?_).mpr ?_
  · intro x hx
    rw [Finset.mem_filter] at hx ⊢
    exact ⟨hx.1, by omega⟩
  · exact ⟨cur - 1, Finset.mem_filter.mpr ⟨h, by omega⟩, fun hx => by
      rw [Finset.mem_filter] at hx; omega⟩

theorem fwdFilter_card_lt (s : Finset ℤ) (cur : ℤ) (h : cur + 1 ∈ s) :
    (s.filter (fun x => cur + 1 < x)).card < (s.filter (fun x => cur < x)).card := by
  apply Finset.card_lt_card
  refine (Finset.ssubset_iff_of_subset ?_).mpr ?_
  · intro x hx
    rw [Finset.mem_filter] at hx ⊢
    exact ⟨hx.1, by omega⟩
  · exact ⟨cur + 1, Finset.mem_filter.mpr ⟨h, by omega⟩, fun hx => by
      rw [Finset.mem_filter] at hx; omega⟩

/-- The backward walk of compute_streaks adds to acc exactly the length of
the run of consecutive set members immediately below cur. -/
theorem backWalk_spec (s : Finset ℤ) :
    ∀ (fuel : ℕ) (cur : ℤ) (acc : ℕ),
      (s.filter (fun x => x < cur)).card ≤ fuel →
      ∃ k : ℕ, backWalk s fuel cur acc = acc + k ∧
        (∀ i : ℕ, 1 ≤ i → i ≤ k → cur - (i : ℤ) ∈ s) ∧
        cur - ((k : ℤ) + 1) ∉ s := by
  intro fuel
  induction fuel with
  | zero =>
    intro cur acc hf
    refine ⟨0, rfl, fun i h1 h2 => absurd (Nat.le_trans h1 h2) (by omega), fun hmem => ?_⟩
    have hm : cur - 1 ∈ s.filter (fun x => x < cur) :=
      Finset.mem_filter.mpr ⟨by simpa using hmem, by omega⟩
    have hp : 0 < (s.filter (fun x => x < cur)).card := Finset.card_pos.mpr ⟨_, hm⟩
    omega
  | succ fuel ih =>
    intro cur acc hf
    by_cases h : cur - 1 ∈ s
    · have hlt := backFilter_card_lt s cur h
      obtain ⟨k, hk, hmem, hnot⟩ := ih (cur - 1) (acc + 1) (by omega)
      refine ⟨k + 1, ?_, ?_, ?_⟩
      · simp only [backWalk, if_pos h, hk]
        omega
      · intro i h1 h2
        by_cases hi : i = 1
        · subst hi; simpa using h
        · have he : cur - (i : ℤ) = cur - 1 - ((i - 1 : ℕ) : ℤ) := by omega
          rw [he]
          exact hmem (i - 1) (by omega) (by omega)
      · have he : cur - (((k + 1 : ℕ) : ℤ) + 1) = cur - 1 - ((k : ℤ) + 1) := by
          push_cast; ring
        rw [he]
        exact hnot
    · refine ⟨0, ?_, fun i h1 h2 => absurd (Nat.le_trans h1 h2) (by omega), ?_⟩
      · simp only [backWalk, if_neg h]
        omega
      · simpa using h

/-- The forward walk of the longest scan adds to run exactly the length of
the run of consecutive set members immediately above cur. -/
theorem fwdWalk_spec (s : Finset ℤ) :
    ∀ (fuel : ℕ) (cur : ℤ) (run : ℕ),
      (s.filter (fun x => cur < x)).card ≤ fuel →
      ∃ k : ℕ, fwdWalk s fuel cur run = run + k ∧
        (∀ i : ℕ, 1 ≤ i → i ≤ k → cur + (i : ℤ) ∈ s) ∧
        cur + ((k : ℤ) + 1) ∉ s := by
  intro fuel
  induction fuel with
  | zero =>
    intro cur run hf
    refine ⟨0, rfl, fun i h1 h2 => absurd (Nat.le_trans h1 h2) (by omega), fun hmem => ?_⟩
    have hm : cur + 1 ∈ s.filter (fun x => cur < x) :=
      Finset.mem_filter.mpr ⟨by simpa using hmem, by omega⟩
    have hp : 0 < (s.filter (fun x => cur < x)).card := Finset.card_pos.mpr ⟨_, hm⟩
    omega
  | succ fuel ih =>
    intro cur run hf
    by_cases h : cur + 1 ∈ s
    · have hlt := fwdFilter_card_lt s cur h
      obtain ⟨k, hk, hmem, hnot⟩ := ih (cur + 1) (run + 1) (by omega)
      refine ⟨k + 1, ?_, ?_, ?_⟩
      · simp only [fwdWalk, if_pos h, hk]
        omega
      · intro i h1 h2
        by_cases hi : i = 1
        · subst hi; simpa using h
        · have he : cur + (i : ℤ) = cur + 1 + ((i - 1 : ℕ) : ℤ) := by omega
          rw [he]
          exact hmem (i - 1) (by omega) (by omega)
      · have he : cur + (((k + 1 : ℕ) : ℤ) + 1) = cur + 1 + ((k : ℤ) + 1) := by
          push_cast; ring
        rw [he]
        exact hnot
    · refine ⟨0, ?_, fun i h1 h2 => absurd (Nat.le_trans h1 h2) (by omega), ?_⟩
      · simp only [fwdWalk, if_neg h]
        omega
      · simpa using h

/-- The backward walk of the streak pass adds to acc exactly the length of
the run of in-window days with positive stored count immediately below cur. -/
theorem walkBack_spec (start endd : ℤ) (counts : ℤ → ℕ) :
    ∀ (fuel : ℕ) (cur : ℤ) (acc : ℕ),
      (cur - start).toNat ≤ fuel →
      ∃ k : ℕ, walkBack start endd counts fuel cur acc = acc + k ∧
        (∀ i : ℕ, 1 ≤ i → i ≤ k →
          start ≤ cur - (i : ℤ) ∧ cur - (i : ℤ) ≤ endd ∧ 0 < counts (cur - (i : ℤ))) ∧
        ¬(start ≤ cur - ((k : ℤ) + 1) ∧ cur - ((k : ℤ) + 1) ≤ endd ∧
          0 < counts (cur - ((k : ℤ) + 1))) := by
  intro fuel
  induction fuel with
  | zero =>
    intro cur acc hf
    refine ⟨0, rfl, fun i h1 h2 => absurd (Nat.le_trans h1 h2) (by omega), fun hx => ?_⟩
    omega
  | succ fuel ih =>
    intro cur acc hf
    by_cases h : start ≤ cur - 1 ∧ cur - 1 ≤ endd ∧ 0 < counts (cur - 1)
    · obtain ⟨k, hk, hmem, hnot⟩ := ih (cur - 1) (acc + 1) (by omega)
      refine ⟨k + 1, ?_, ?_, ?_⟩
      · simp only [walkBack, if_pos h, hk]
        omega
      · intro i h1 h2
        by_cases hi : i = 1
        · subst hi; simpa using h
        · have he : cur - (i : ℤ) = cur - 1 - ((i - 1 : ℕ) : ℤ) := by omega
          rw [he]
          exact hmem (i - 1) (by omega) (by omega)
      · have he : cur - (((k + 1 : ℕ) : ℤ) + 1) = cur - 1 - ((k : ℤ) + 1) := by
          push_cast; ring
        rw [he]
        exact hnot
    · refine ⟨0, ?_, fun i h1 h2 => absurd (Nat.le_trans h1 h2) (by omega), ?_⟩
      · simp only [walkBack, if_neg h]
        omega
      · simpa using h

/-- The backward walk of the streak pass reads the count map only through
the positivity of in-window entries. -/
theorem walkBack_congr (start endd : ℤ) (c1 c2 : ℤ → ℕ)
    (h : ∀ x : ℤ, start ≤ x → x ≤ endd → (0 < c1 x ↔ 0 < c2 x)) :
    ∀ (fuel : ℕ) (cur : ℤ) (acc : ℕ),
      walkBack start endd c1 fuel cur acc = walkBack start endd c2 fuel cur acc := by
  intro fuel
  induction fuel with
  | zero => intro cur acc; rfl
  | succ fuel ih =>
    intro cur acc
    by_cases hc : start ≤ cur - 1 ∧ cur - 1 ≤ endd ∧ 0 < c1 (cur - 1)
    · have hc2 : start ≤ cur - 1 ∧ cur - 1 ≤ endd ∧ 0 < c2 (cur - 1) :=
        ⟨hc.1, hc.2.1, (h _ hc.1 hc.2.1).mp hc.2.2⟩
      simp only [walkBack, if_pos hc, if_pos hc2, ih]
    · have hc2 : ¬(start ≤ cur - 1 ∧ cur - 1 ≤ endd ∧ 0 < c2 (cur - 1)) := by
        intro hx
        exact hc ⟨hx.1, hx.2.1, (h _ hx.1 hx.2.1).mpr hx.2.2⟩
      simp only [walkBack, if_neg hc, if_neg hc2]

/-! Unfolding lemmas for compute_streaks. -/

theorem compute_streaks_nil (today : ℤ) : compute_streaks [] today = (0, 0) := rfl

theorem compute_streaks_snd (days : List ℤ) (today : ℤ) (h : days ≠ []) :
    (compute_streaks days today).2 = longestFold days.toFinset days 1 := by
  unfold compute_streaks
  rw [if_neg h]
  by_cases h1 : today ∈ days.toFinset
  · simp [h1]
  · by_cases h2 : today - 1 ∈ days.toFinset <;> simp [h1, h2]

theorem compute_streaks_fst_today (days : List ℤ) (today : ℤ)
    (h1 : today ∈ days.toFinset) :
    (compute_streaks days today).1 =
      backWalk days.toFinset days.toFinset.card today 1 := by
  have h : days ≠ [] := by
    intro he
    subst he
    simp at h1
  unfold compute_streaks
  rw [if_neg h]
  simp [h1]

theorem compute_streaks_fst_yesterday (days : List ℤ) (today : ℤ)
    (h1 : today ∉ days.toFinset) (h2 : today - 1 ∈ days.toFinset) :
    (compute_streaks days today).1 =
      backWalk days.toFinset days.toFinset.card (today - 1) 1 := by
  have h : days ≠ [] := by
    intro he
    subst he
    simp at h2
  unfold compute_streaks
  rw [if_neg h]
  simp [h1, h2]

theorem compute_streaks_fst_none (days : List ℤ) (today : ℤ)
    (h1 : today ∉ days.toFinset) (h2 : today - 1 ∉ days.toFinset) :
    (compute_streaks days today).1 = 0 := by
  by_cases h : days = []
  · subst h
    rfl
  · unfold compute_streaks
    rw [if_neg h]
    simp [h1, h2]

/-! Lemmas about the longest fold. -/

theorem le_longestFold (s : Finset ℤ) :
    ∀ (l : List ℤ) (a : ℕ), a ≤ longestFold s l a := by
  intro l
  induction l with
  | nil => intro a; exact Nat.le_refl a
  | cons hd tl ih =>
    intro a
    have h1 : a ≤ if hd - 1 ∉ s then max a (fwdWalk s s.card hd 1) else a := by
      by_cases h : hd - 1 ∉ s
      · rw [if_pos h]; exact Nat.le_max_left _ _
      · rw [if_neg h]
    exact Nat.le_trans h1 (ih _)

theorem longestFold_cons (s : Finset ℤ) (hd : ℤ) (tl : List ℤ) (a : ℕ) :
    longestFold s (hd :: tl) a =
      longestFold s tl (if hd - 1 ∉ s then max a (fwdWalk s s.card hd 1) else a) := rfl

theorem runLen_le_longestFold (s : Finset ℤ) :
    ∀ (l : List ℤ) (a : ℕ) (d : ℤ), d ∈ l → d - 1 ∉ s →
      fwdWalk s s.card d 1 ≤ longestFold s l a := by
  intro l
  induction l with
  | nil => intro a d hd; exact absurd hd (List.not_mem_nil d)
  | cons hd tl ih =>
    intro a d hmem hrs
    rcases List.mem_cons.mp hmem with he | htl
    · subst he
      rw [longestFold_cons, if_pos hrs]
      exact Nat.le_trans (Nat.le_max_right _ _) (le_longestFold s tl _)
    · rw [longestFold_cons]
      exact ih _ d htl hrs

theorem longestFold_reached (s : Finset ℤ) :
    ∀ (l : List ℤ) (a : ℕ),
      longestFold s l a = a ∨
      ∃ d, d ∈ l ∧ d - 1 ∉ s ∧ longestFold s l a = fwdWalk s s.card d 1 := by
  intro l
  induction l with
  | nil => intro a; exact Or.inl rfl
  | cons hd tl ih =>
    intro a
    rw [longestFold_cons]
    by_cases hrs : hd - 1 ∉ s
    · rw [if_pos hrs]
      rcases ih (max a (fwdWalk s s.card hd 1)) with h | ⟨d, hdm, hdr, he⟩
      · rcases Nat.le_total a (fwdWalk s s.card hd 1) with hle | hle
        · refine Or.inr ⟨hd, List.mem_cons_self hd tl, hrs, ?_⟩
          rw [h]
          omega
        · refine Or.inl ?_
          rw [h]
          omega
      · exact Or.inr ⟨d, List.mem_cons_of_mem hd hdm, hdr, he⟩
    · rw [if_neg hrs]
      rcases ih a with h | ⟨d, hdm, hdr, he⟩
      · exact Or.inl h
      · exact Or.inr ⟨d, List.mem_cons_of_mem hd hdm, hdr, he⟩

/-- C1: for every finite set of dates, compute_streaks returns a current
streak anchored at today if today is in the set, otherwise at yesterday if
yesterday is in the set, otherwise current equals 0 while the longest value
is still returned unchanged; from the anchor it counts 1 for the anchor
plus one for each consecutive prior day in the set (so every day strictly
within the counted span is in the set and the day just before the span is
not). -/
theorem C1_current_anchor (days : List ℤ) (t : ℤ) :
    (t ∈ days.toFinset →
      1 ≤ (compute_streaks days t).1 ∧
      (∀ i : ℕ, i < (compute_streaks days t).1 → t - (i : ℤ) ∈ days.toFinset) ∧
      t - ((compute_streaks days t).1 : ℤ) ∉ days.toFinset) ∧
    (t ∉ days.toFinset → t - 1 ∈ days.toFinset →
      1 ≤ (compute_streaks days t).1 ∧
      (∀ i : ℕ, i < (compute_streaks days t).1 → t - 1 - (i : ℤ) ∈ days.toFinset) ∧
      t - 1 - ((compute_streaks days t).1 : ℤ) ∉ days.toFinset) ∧
    (t ∉ days.toFinset → t - 1 ∉ days.toFinset → (compute_streaks days t).1 = 0) ∧
    (∀ t' : ℤ, (compute_streaks days t).2 = (compute_streaks days t').2) := by
  refine ⟨?_, ?_, ?_, ?_⟩
  · intro ht
    rw [compute_streaks_fst_today days t ht]
    obtain ⟨k, hk, hmem, hnot⟩ :=
      backWalk_spec days.toFinset days.toFinset.card t 1
        (Finset.card_filter_le _ _)
    rw [hk]
    refine ⟨by omega, ?_, ?_⟩
    · intro i hi
      by_cases hz : i = 0
      · subst hz
        simpa using ht
      · exact hmem i (by omega) (by omega)
    · have he : t - ((1 + k : ℕ) : ℤ) = t - ((k : ℤ) + 1) := by push_cast; ring
      rw [he]
      exact hnot
  · intro ht hy
    rw [compute_streaks_fst_yesterday days t ht hy]
    obtain ⟨k, hk, hmem, hnot⟩ :=
      backWalk_spec days.toFinset days.toFinset.card (t - 1) 1
        (Finset.card_filter_le _ _)
    rw [hk]
    refine ⟨by omega, ?_, ?_⟩
    · intro i hi
      by_cases hz : i = 0
      · subst hz
        simpa using hy
      · exact hmem i (by omega) (by omega)
    · have he : t - 1 - ((1 + k : ℕ) : ℤ) = t - 1 - ((k : ℤ) + 1) := by push_cast; ring
      rw [he]
      exact hnot
  · intro ht hy
    exact compute_streaks_fst_none days t ht hy
  · intro t'
    by_cases h : days = []
    · subst h
      rfl
    · rw [compute_streaks_snd days t h, compute_streaks_snd days t' h]

/-- C1 witness at the worked example of the spec: for the logged days
2024-01-01, 2024-01-02, 2024-01-04 and today 2024-01-04, walking the
current streak back from its anchor leaves the set. -/
theorem C1_current_anchor_witness :
    (738889 : ℤ) - ((compute_streaks [738886, 738887, 738889] 738889).1 : ℤ) ∉
      ([738886, 738887, 738889] : List ℤ).toFinset :=
  ((C1_current_anchor [738886, 738887, 738889] 738889).1 (by decide)).2.2

/-- C3: for every finite set of dates the longest streak returned by
compute_streaks is the maximum over all run starts of the length of the
consecutive run beginning there: some run start carries a run of exactly
that length, and no run start carries a longer one; for the empty list the
result is (0, 0). -/
theorem C3_longest (days : List ℤ) (t : ℤ) :
    (days = [] → compute_streaks days t = (0, 0)) ∧
    (days ≠ [] →
      (∃ d ∈ days.toFinset, d - 1 ∉ days.toFinset ∧
        (∀ i : ℕ, i < (compute_streaks days t).2 → d + (i : ℤ) ∈ days.toFinset) ∧
        d + ((compute_streaks days t).2 : ℤ) ∉ days.toFinset) ∧
      (∀ d ∈ days.toFinset, d - 1 ∉ days.toFinset →
        ∀ k : ℕ, (∀ i : ℕ, i < k → d + (i : ℤ) ∈ days.toFinset) →
          k ≤ (compute_streaks days t).2)) := by
  constructor
  · intro h
    subst h
    rfl
  · intro h
    have hL := compute_streaks_snd days t h
    constructor
    · rcases longestFold_reached days.toFinset days 1 with hr | ⟨d, hdm, hdr, he⟩
      · obtain ⟨m, hm⟩ := List.exists_mem_of_ne_nil days h
        have hms : m ∈ days.toFinset := List.mem_toFinset.mpr hm
        have hne : days.toFinset.Nonempty := ⟨m, hms⟩
        have hmin : days.toFinset.min' hne ∈ days.toFinset := Finset.min'_mem _ _
        have hrs : days.toFinset.min' hne - 1 ∉ days.toFinset := by
          intro hmm
          have := Finset.min'_le days.toFinset _ hmm
          omega
        obtain ⟨k, hk, hmem, hnot⟩ :=
          fwdWalk_spec days.toFinset days.toFinset.card (days.toFinset.min' hne) 1
            (Finset.card_filter_le _ _)
        have hub : fwdWalk days.toFinset days.toFinset.card (days.toFinset.min' hne) 1 ≤ 1 := by
          have h1 := runLen_le_longestFold days.toFinset days 1
            (days.toFinset.min' hne) (List.mem_toFinset.mp hmin) hrs
          omega
        have hk0 : k = 0 := by omega
        refine ⟨days.toFinset.min' hne, hmin, hrs, ?_, ?_⟩
        · intro i hi
          have : i = 0 := by omega
          subst this
          simpa using hmin
        · have hv : (compute_streaks days t).2 = 1 := by omega
          rw [hv]
          subst hk0
          simpa using hnot
      · have hds : d ∈ days.toFinset := List.mem_toFinset.mpr hdm
        obtain ⟨k, hk, hmem, hnot⟩ :=
          fwdWalk_spec days.toFinset days.toFinset.card d 1
            (Finset.card_filter_le _ _)
        refine ⟨d, hds, hdr, ?_, ?_⟩
        · intro i hi
          rw [hL, he, hk] at hi
          by_cases hz : i = 0
          · subst hz
            simpa using hds
          · exact hmem i (by omega) (by omega)
        · rw [hL, he, hk]
          have hc : d + ((1 + k : ℕ) : ℤ) = d + ((k : ℤ) + 1) := by push_cast; ring
          rw [hc]
          exact hnot
    · intro d hds hdr k hk
      have hdm : d ∈ days := List.mem_toFinset.mp hds
      have hub := runLen_le_longestFold days.toFinset days 1 d hdm hdr
      obtain ⟨k0, hk0, hmem0, hnot0⟩ :=
        fwdWalk_spec days.toFinset days.toFinset.card d 1
          (Finset.card_filter_le _ _)
      have hle : k ≤ k0 + 1 := by
        by_contra hgt
        push_neg at hgt
        have hin := hk (k0 + 1) (by omega)
        have hc : d + ((k0 + 1 : ℕ) : ℤ) = d + ((k0 : ℤ) + 1) := by push_cast; ring
        rw [hc] at hin
        exact hnot0 hin
      rw [hL]
      omega

/-- C3 witness: for the logged days 2024-01-01, 2024-01-02, 2024-01-04, the
two consecutive days starting at 2024-01-01 force a longest streak of at
least 2. -/
theorem C3_longest_witness : 2 ≤ (compute_streaks [738886, 738887, 738889] 0).2 :=
  ((C3_longest [738886, 738887, 738889] 0).2 (by decide)).2 738886 (by decide)
    (by decide) 2 (by decide)

/-- C5: the source reads date.today() inside compute_streaks (line 103) and
render_forest (line 167) rather than receiving the current date from the
caller; modelling that ambient read as the explicit today argument, the same
explicit input (the single logged day 2024-01-04) yields current streak 1
under ambient date 2024-01-04 but 0 under ambient date 2024-02-01, so the
output is not determined by the explicit arguments alone. -/
theorem C5_ambient_clock :
    compute_streaks [738889] 738889 ≠ compute_streaks [738889] 738917 := by decide

/-! The destructive streak pass of render_forest: characterization and
equivalence with the per-day recomputation from the unmodified counts. -/

theorem dayStreakPure_pos_iff (start endd : ℤ) (c0 : ℤ → ℕ) (d : ℤ) :
    (0 < dayStreakPure start endd c0 d ↔ 0 < c0 d) := by
  unfold dayStreakPure
  by_cases h : 0 < c0 d
  · rw [if_pos h]
    constructor
    · intro _
      exact h
    · intro _
      omega
  · rw [if_neg h]
    omega

theorem spStep_apply (start endd : ℤ) (counts : ℤ → ℕ) (i : ℕ) :
    spStep start endd counts i =
      Function.update counts (start + (i : ℤ))
        (if 0 < counts (start + (i : ℤ)) then
          walkBack start endd counts i (start + (i : ℤ)) 0 + 1
        else 0) := rfl

theorem spFold_spec (start endd : ℤ) (c0 : ℤ → ℕ) :
    ∀ j : ℕ,
      (∀ x : ℤ, x < start ∨ start + (j : ℤ) ≤ x →
        (List.range j).foldl (spStep start endd) c0 x = c0 x) ∧
      (∀ x : ℤ, start ≤ x → x < start + (j : ℤ) →
        (List.range j).foldl (spStep start endd) c0 x = dayStreakPure start endd c0 x) := by
  intro j
  induction j with
  | zero =>
    constructor
    · intro x hx
      rfl
    · intro x h1 h2
      omega
  | succ j ih =>
    have hsplit : (List.range (j + 1)).foldl (spStep start endd) c0 =
        spStep start endd ((List.range j).foldl (spStep start endd) c0) j := by
      rw [List.range_succ, List.foldl_append, List.foldl_cons, List.foldl_nil]
    have hpos : ∀ x : ℤ, start ≤ x → x ≤ endd →
        (0 < (List.range j).foldl (spStep start endd) c0 x ↔ 0 < c0 x) := by
      intro x hx1 hx2
      by_cases hx3 : start + (j : ℤ) ≤ x
      · rw [ih.1 x (Or.inr hx3)]
      · rw [ih.2 x hx1 (by omega)]
        exact dayStreakPure_pos_iff start endd c0 x
    have hd0 : (List.range j).foldl (spStep start endd) c0 (start + (j : ℤ)) =
        c0 (start + (j : ℤ)) := ih.1 _ (Or.inr (le_refl _))
    have hwb : walkBack start endd ((List.range j).foldl (spStep start endd) c0) j
          (start + (j : ℤ)) 0 =
        walkBack start endd c0 j (start + (j : ℤ)) 0 :=
      walkBack_congr start endd _ c0 hpos j _ 0
    constructor
    · intro x hx
      rw [hsplit, spStep_apply]
      rw [Function.update_noteq (by push_cast at hx ⊢; omega)]
      refine ih.1 x ?_
      rcases hx with h | h
      · exact Or.inl h
      · refine Or.inr ?_
        push_cast at h ⊢
        omega
    · intro x hx1 hx2
      rw [hsplit, spStep_apply]
      by_cases hx : x = start + (j : ℤ)
      · subst hx
        rw [Function.update_same, hd0, hwb]
        unfold dayStreakPure
        have hj : ((start + (j : ℤ)) - start).toNat = j := by omega
        rw [hj]
      · rw [Function.update_noteq hx]
        refine ih.2 x hx1 ?_
        push_cast at hx2
        omega

/-- The in-place streak pass agrees, on every day of the window, with the
per-day streak recomputed from the untouched original counts. -/
theorem streakPass_eq_pure (start endd : ℤ) (c0 : ℤ → ℕ) (d : ℤ)
    (h1 : start ≤ d) (h2 : d ≤ endd) :
    streakPass start endd c0 d = dayStreakPure start endd c0 d := by
  unfold streakPass
  refine (spFold_spec start endd c0 _).2 d h1 ?_
  omega

/-- Outside the window the streak pass leaves the map untouched. -/
theorem streakPass_outside (start endd : ℤ) (c0 : ℤ → ℕ) (d : ℤ)
    (h : d < start ∨ endd < d) :
    streakPass start endd c0 d = c0 d := by
  unfold streakPass
  refine (spFold_spec start endd c0 _).1 d ?_
  omega

/-- C10: the renderer overwrites the count map in place while iterating it
in chronological insertion order, and this destructive pass produces, at
every day of the window, the same value as computing that day from an
unmodified copy of the original counts; the stored value of a processed day
is positive exactly when the original count was positive, which is why the
overwriting is benign. -/
theorem C10_inplace_pass_refines_pure (start endd : ℤ) (c0 : ℤ → ℕ) (d : ℤ)
    (h1 : start ≤ d) (h2 : d ≤ endd) :
    streakPass start endd c0 d = dayStreakPure start endd c0 d ∧
    (0 < streakPass start endd c0 d ↔ 0 < c0 d) := by
  refine ⟨streakPass_eq_pure start endd c0 d h1 h2, ?_⟩
  rw [streakPass_eq_pure start endd c0 d h1 h2]
  exact dayStreakPure_pos_iff start endd c0 d

/-- C10 witness at the worked example of the spec, on 2024-01-02. -/
theorem C10_inplace_pass_refines_pure_witness :
    streakPass 738886 738889 exampleCounts 738887 =
      dayStreakPure 738886 738889 exampleCounts 738887 ∧
    (0 < streakPass 738886 738889 exampleCounts 738887 ↔ 0 < exampleCounts 738887) :=
  C10_inplace_pass_refines_pure 738886 738889 exampleCounts 738887
    (by decide) (by decide)

/-- C2: over a dense count map on the window, the per-day streak value the
renderer stores is 0 on a day with count 0, and otherwise one plus the
number of consecutive days immediately before it that lie in the map with
positive count (the day just beyond that run fails to be an in-window
positive day); and on the worked example of the spec, counts 1, 1, 0, 1 on
2024-01-01 through 2024-01-04 yield the per-day streaks 1, 2, 0, 1. -/
theorem C2_daily_streaks :
    (∀ (start endd : ℤ) (c0 : ℤ → ℕ) (d : ℤ), start ≤ d → d ≤ endd →
      ((c0 d = 0 → streakPass start endd c0 d = 0) ∧
       (0 < c0 d → ∃ k : ℕ, streakPass start endd c0 d = k + 1 ∧
         (∀ i : ℕ, 1 ≤ i → i ≤ k →
           start ≤ d - (i : ℤ) ∧ d - (i : ℤ) ≤ endd ∧ 0 < c0 (d - (i : ℤ))) ∧
         ¬(start ≤ d - ((k : ℤ) + 1) ∧ d - ((k : ℤ) + 1) ≤ endd ∧
           0 < c0 (d - ((k : ℤ) + 1)))))) ∧
    (streakPass 738886 738889 exampleCounts 738886 = 1 ∧
     streakPass 738886 738889 exampleCounts 738887 = 2 ∧
     streakPass 738886 738889 exampleCounts 738888 = 0 ∧
     streakPass 738886 738889 exampleCounts 738889 = 1) := by
  constructor
  · intro start endd c0 d h1 h2
    constructor
    · intro h0
      rw [streakPass_eq_pure start endd c0 d h1 h2]
      unfold dayStreakPure
      rw [if_neg (by omega)]
    · intro hp
      rw [streakPass_eq_pure start endd c0 d h1 h2]
      unfold dayStreakPure
      rw [if_pos hp]
      obtain ⟨k, hk, hmem, hnot⟩ :=
        walkBack_spec start endd c0 ((d - start).toNat) d 0 (le_refl _)
      exact ⟨k, by omega, hmem, hnot⟩
  · refine ⟨by decide, by decide, by decide, by decide⟩

/-- C2 witness: on the worked example, 2024-01-02 has positive count, so
its stored streak is some k plus one with the characterized backward run. -/
theorem C2_daily_streaks_witness :
    ∃ k : ℕ, streakPass 738886 738889 exampleCounts 738887 = k + 1 ∧
      (∀ i : ℕ, 1 ≤ i → i ≤ k →
        (738886 : ℤ) ≤ 738887 - (i : ℤ) ∧ (738887 : ℤ) - (i : ℤ) ≤ 738889 ∧
        0 < exampleCounts (738887 - (i : ℤ))) ∧
      ¬((738886 : ℤ) ≤ 738887 - ((k : ℤ) + 1) ∧ (738887 : ℤ) - ((k : ℤ) + 1) ≤ 738889 ∧
        0 < exampleCounts (738887 - ((k : ℤ) + 1))) :=
  ((C2_daily_streaks.1 738886 738889 exampleCounts 738887 (by decide) (by decide)).2
    (by decide))

/-! The stage selector: membership of the pick in its palette, and the
branch structure of stage_for_count. -/

theorem randbelowGo_lt (n k : ℕ) :
    ∀ (fuel : ℕ) (st : ℕ × ℕ), 0 < n → (randbelowGo n k fuel st).1 < n := by
  intro fuel
  induction fuel with
  | zero => intro st hn; exact hn
  | succ fuel ih =>
    intro st hn
    simp only [randbelowGo]
    by_cases h : n ≤ (getrandbits st k).1
    · rw [if_pos h]
      exact ih _ hn
    · rw [if_neg h]
      omega

theorem randbelow_lt (st : ℕ × ℕ) (n : ℕ) (hn : 0 < n) : (randbelow st n).1 < n :=
  randbelowGo_lt n _ 64 st hn

/-- Random(seed).choice always returns an element of a nonempty list. -/
theorem pyChoice_mem (seed : ℕ) (lst : List String) (h : lst ≠ []) :
    pyChoice seed lst ∈ lst := by
  unfold pyChoice
  have hlen : 0 < lst.length := List.length_pos.mpr h
  have hidx : (randbelow (pyRandomInit seed) lst.length).1 < lst.length :=
    randbelow_lt _ _ hlen
  rw [List.getD_eq_getElem?_getD, List.getElem?_eq_getElem hidx]
  exact List.getElem_mem hidx

theorem stage_nonpos (n : ℤ) (h : n ≤ 0) : stage_for_count n = "." := by
  unfold stage_for_count
  rw [if_pos h]

theorem stage_one : stage_for_count 1 = pyChoice RAND_SEED SEED_LIST := rfl

theorem stage_two : stage_for_count 2 = pyChoice RAND_SEED SAPLING_LIST := rfl

theorem stage_three : stage_for_count 3 = pyChoice RAND_SEED TREE_LIST := rfl

theorem stage_four : stage_for_count 4 = pyChoice RAND_SEED BUG_LIST := rfl

theorem stage_ge_five (n : ℤ) (h : 5 ≤ n) :
    stage_for_count n = pyChoice RAND_SEED WOODLAND_ANIMAL_LIST := by
  unfold stage_for_count
  rw [if_neg (by omega), if_neg (by omega), if_neg (by omega), if_neg (by omega),
    if_neg (by omega)]

/-! Generic list-of-lists access lemmas for the grid. -/

theorem getD_set_self {α : Type} (l : List α) (i : ℕ) (v d : α) (h : i < l.length) :
    (l.set i v).getD i d = v := by
  rw [List.getD_eq_getElem?_getD, List.getElem?_set_self h]
  rfl

theorem getD_set_ne {α : Type} (l : List α) (i j : ℕ) (v d : α) (h : i ≠ j) :
    (l.set i v).getD j d = l.getD j d := by
  rw [List.getD_eq_getElem?_getD, List.getD_eq_getElem?_getD, List.getElem?_set_ne h]

theorem getD_replicate {α : Type} (n i : ℕ) (a d : α) (h : i < n) :
    (List.replicate n a).getD i d = a := by
  rw [List.getD_eq_getElem?_getD, List.getElem?_replicate_of_lt h]
  rfl

theorem getD_of_length_le {α : Type} (l : List α) (i : ℕ) (d : α) (h : l.length ≤ i) :
    l.getD i d = d := by
  rw [List.getD_eq_getElem?_getD, List.getElem?_eq_none h]
  rfl

theorem length_gridSet (g : List (List String)) (r c : ℕ) (v : String) :
    (gridSet g r c v).length = g.length := List.length_set g r _

theorem gridSet_row_self (g : List (List String)) (r c : ℕ) (v : String)
    (h : r < g.length) :
    (gridSet g r c v).getD r [] = (g.getD r []).set c v := getD_set_self g r _ [] h

theorem gridSet_row_ne (g : List (List String)) (r r' c : ℕ) (v : String)
    (h : r ≠ r') :
    (gridSet g r c v).getD r' [] = g.getD r' [] := getD_set_ne g r r' _ [] h

theorem cellAt_gridSet_self (g : List (List String)) (r c : ℕ) (v : String)
    (hr : r < g.length) (hc : c < (g.getD r []).length) :
    cellAt (gridSet g r c v) r c = v := by
  unfold cellAt
  rw [gridSet_row_self g r c v hr]
  exact getD_set_self _ c v " " hc

theorem cellAt_gridSet_ne (g : List (List String)) (r c r' c' : ℕ) (v : String)
    (h : r ≠ r' ∨ c ≠ c') :
    cellAt (gridSet g r c v) r' c' = cellAt g r' c' := by
  unfold cellAt
  rcases h with h | h
  · rw [gridSet_row_ne g r r' c v h]
  · by_cases hr : r = r'
    · subst hr
      by_cases hrl : r < g.length
      · rw [gridSet_row_self g r c v hrl]
        exact getD_set_ne _ c c' v " " h
      · have h1 : (gridSet g r c v).getD r [] = [] := by
          refine getD_of_length_le _ r [] ?_
          rw [length_gridSet]
          omega
        have h2 : g.getD r [] = [] := getD_of_length_le g r [] (by omega)
        rw [h1, h2]
    · rw [gridSet_row_ne g r r' c v hr]

/-! Weekday arithmetic of the aligned window. -/

theorem startAligned_facts (start : ℤ) :
    startAligned start ≤ start ∧ start - startAligned start < 7 ∧
    weekday (startAligned start) = 0 := by
  simp only [weekday, startAligned]
  omega

theorem weekday_lt (d : ℤ) : (weekday d).toNat < 7 := by
  unfold weekday
  omega

theorem weekday_startAligned_add (start : ℤ) (i : ℕ) :
    (weekday (startAligned start + (i : ℤ))).toNat = i % 7 := by
  simp only [weekday, startAligned]
  omega

theorem div7_lt_gridCols (start today : ℤ) (j : ℕ) (h : j < daysTotal start today) :
    j / 7 < gridCols start today := by
  unfold gridCols
  omega

/-- The grid after the first j iterations of the filling loop. -/
def renderAccum (counts : ℤ → ℕ) (start today : ℤ) (j : ℕ) : List (List String) :=
  (List.range j).foldl (renderStep counts start today)
    (List.replicate 7 (List.replicate (gridCols start today) " "))

theorem renderAccum_succ (counts : ℤ → ℕ) (start today : ℤ) (j : ℕ) :
    renderAccum counts start today (j + 1) =
      renderStep counts start today (renderAccum counts start today j) j := by
  unfold renderAccum
  rw [List.range_succ, List.foldl_append, List.foldl_cons, List.foldl_nil]

theorem renderStep_apply (counts : ℤ → ℕ) (start today : ℤ)
    (g : List (List String)) (i : ℕ) :
    renderStep counts start today g i =
      gridSet g ((weekday (startAligned start + (i : ℤ))).toNat) (i / 7)
        (cellValue counts start today (startAligned start + (i : ℤ))) := rfl

/-- Shape and cell contents of the grid after j loop iterations: 7 rows of
cols cells each; the cell in row r and column c is the rendered value of day
start_aligned plus 7 c plus r when that day index is below j, else the
initial blank. -/
theorem renderAccum_spec (counts : ℤ → ℕ) (start today : ℤ) :
    ∀ j : ℕ,
      (renderAccum counts start today j).length = 7 ∧
      (∀ r : ℕ, r < 7 →
        ((renderAccum counts start today j).getD r []).length = gridCols start today) ∧
      (∀ r c : ℕ, r < 7 → c < gridCols start today → 7 * c + r < daysTotal start today →
        cellAt (renderAccum counts start today j) r c =
          if 7 * c + r < j then
            cellValue counts start today (startAligned start + ((7 * c + r : ℕ) : ℤ))
          else " ") ∧
      (∀ r c : ℕ, r < 7 → c < gridCols start today →
        daysTotal start today ≤ 7 * c + r → j ≤ daysTotal start today →
        cellAt (renderAccum counts start today j) r c = " ") := by
  intro j
  induction j with
  | zero =>
    refine ⟨by simp [renderAccum], ?_, ?_, ?_⟩
    · intro r hr
      unfold renderAccum
      rw [List.range_zero, List.foldl_nil, getD_replicate 7 r _ [] hr,
        List.length_replicate]
    · intro r c hr hc hN
      unfold renderAccum cellAt
      rw [List.range_zero, List.foldl_nil, getD_replicate 7 r _ [] hr,
        getD_replicate _ c _ " " hc, if_neg (by omega)]
    · intro r c hr hc hN hj
      unfold renderAccum cellAt
      rw [List.range_zero, List.foldl_nil, getD_replicate 7 r _ [] hr,
        getD_replicate _ c _ " " hc]
  | succ j ih =>
    obtain ⟨ihlen, ihrow, ihcell, ihpad⟩ := ih
    have hrow7 : (weekday (startAligned start + (j : ℤ))).toNat = j % 7 :=
      weekday_startAligned_add start j
    have hstep : renderAccum counts start today (j + 1) =
        gridSet (renderAccum counts start today j) (j % 7) (j / 7)
          (cellValue counts start today (startAligned start + (j : ℤ))) := by
      rw [renderAccum_succ, renderStep_apply, hrow7]
    refine ⟨?_, ?_, ?_, ?_⟩
    · rw [hstep, length_gridSet]
      exact ihlen
    · intro r hr
      rw [hstep]
      by_cases hre : j % 7 = r
      · subst hre
        rw [gridSet_row_self _ _ _ _ (by rw [ihlen]; omega), List.length_set]
        exact ihrow _ (by omega)
      · rw [gridSet_row_ne _ _ _ _ _ hre]
        exact ihrow r hr
    · intro r c hr hc hN
      rw [hstep]
      by_cases heq : r = j % 7 ∧ c = j / 7
      · obtain ⟨h1, h2⟩ := heq
        subst h1
        subst h2
        have hsum : 7 * (j / 7) + j % 7 = j := by omega
        rw [cellAt_gridSet_self _ _ _ _ (by rw [ihlen]; omega)
          (by rw [ihrow _ (by omega)]; exact div7_lt_gridCols start today j (by omega)),
          hsum, if_pos (by omega)]
      · have hne : j % 7 ≠ r ∨ j / 7 ≠ c := by omega
        rw [cellAt_gridSet_ne _ _ _ _ _ _ hne, ihcell r c hr hc hN]
        have h7 : 7 * c + r ≠ j := by omega
        by_cases hlt : 7 * c + r < j
        · rw [if_pos hlt, if_pos (by omega)]
        · rw [if_neg hlt, if_neg (by omega)]
    · intro r c hr hc hN hj
      rw [hstep]
      have hne : j % 7 ≠ r ∨ j / 7 ≠ c := by
        have h7 : 7 * c + r ≠ j := by omega
        omega
      rw [cellAt_gridSet_ne _ _ _ _ _ _ hne]
      exact ihpad r c hr hc hN (by omega)

theorem render_forest_eq (counts0 : ℤ → ℕ) (weeks today : ℤ) :
    render_forest counts0 weeks today =
      renderAccum (streakPass (today - (weeks * 7 - 1)) today counts0)
        (today - (weeks * 7 - 1)) today
        (daysTotal (today - (weeks * 7 - 1)) today) := rfl

theorem render_forest_length (counts0 : ℤ → ℕ) (weeks today : ℤ) :
    (render_forest counts0 weeks today).length = 7 := by
  rw [render_forest_eq]
  exact (renderAccum_spec _ _ _ _).1

theorem render_forest_row_length (counts0 : ℤ → ℕ) (weeks today : ℤ) (r : ℕ)
    (hr : r < 7) :
    ((render_forest counts0 weeks today).getD r []).length =
      gridCols (today - (weeks * 7 - 1)) today := by
  rw [render_forest_eq]
  exact (renderAccum_spec _ _ _ _).2.1 r hr

/-- The cell in row r and column c of the rendered grid is the window test
applied to the day start_aligned plus 7 c plus r: blank outside the window,
the stage symbol of the stored streak value inside it. -/
theorem render_forest_cell (counts0 : ℤ → ℕ) (weeks today : ℤ) (r c : ℕ)
    (hr : r < 7) (hc : c < gridCols (today - (weeks * 7 - 1)) today) :
    cellAt (render_forest counts0 weeks today) r c =
      if startAligned (today - (weeks * 7 - 1)) + ((7 * c + r : ℕ) : ℤ) <
           today - (weeks * 7 - 1) ∨
         today < startAligned (today - (weeks * 7 - 1)) + ((7 * c + r : ℕ) : ℤ) then " "
      else
        stage_for_count
          ((streakPass (today - (weeks * 7 - 1)) today counts0
            (startAligned (today - (weeks * 7 - 1)) + ((7 * c + r : ℕ) : ℤ)) : ℤ)) := by
  rw [render_forest_eq]
  by_cases hN : 7 * c + r < daysTotal (today - (weeks * 7 - 1)) today
  · rw [(renderAccum_spec _ _ _ _).2.2.1 r c hr hc hN, if_pos hN]
    rfl
  · rw [(renderAccum_spec _ _ _ _).2.2.2 r c hr hc (by omega) (le_refl _)]
    have hd : today < startAligned (today - (weeks * 7 - 1)) + ((7 * c + r : ℕ) : ℤ) := by
      unfold daysTotal at hN
      omega
    rw [if_pos (Or.inr hd)]

/-- The in-window day d occupies row weekday d and the column given by its
offset from the aligned Monday divided by 7, and holds its stage symbol. -/
theorem render_forest_day (counts0 : ℤ → ℕ) (weeks today d : ℤ)
    (h1 : today - (weeks * 7 - 1) ≤ d) (h2 : d ≤ today) :
    cellAt (render_forest counts0 weeks today) ((weekday d).toNat)
        ((d - startAligned (today - (weeks * 7 - 1))).toNat / 7) =
      stage_for_count
        ((streakPass (today - (weeks * 7 - 1)) today counts0 d : ℤ)) := by
  have hsa := startAligned_facts (today - (weeks * 7 - 1))
  have hdsa : startAligned (today - (weeks * 7 - 1)) ≤ d := le_trans hsa.1 h1
  have hd : d = startAligned (today - (weeks * 7 - 1)) +
      (((d - startAligned (today - (weeks * 7 - 1))).toNat : ℕ) : ℤ) := by omega
  have hr : (weekday d).toNat = (d - startAligned (today - (weeks * 7 - 1))).toNat % 7 := by
    conv_lhs => rw [hd]
    exact weekday_startAligned_add (today - (weeks * 7 - 1)) _
  have hoN : (d - startAligned (today - (weeks * 7 - 1))).toNat <
      daysTotal (today - (weeks * 7 - 1)) today := by
    unfold daysTotal
    omega
  have hcols : (d - startAligned (today - (weeks * 7 - 1))).toNat / 7 <
      gridCols (today - (weeks * 7 - 1)) today :=
    div7_lt_gridCols _ _ _ hoN
  have hmaster := render_forest_cell counts0 weeks today ((weekday d).toNat)
    ((d - startAligned (today - (weeks * 7 - 1))).toNat / 7) (weekday_lt d) hcols
  have hsum : (7 * ((d - startAligned (today - (weeks * 7 - 1))).toNat / 7) +
      (weekday d).toNat : ℕ) = (d - startAligned (today - (weeks * 7 - 1))).toNat := by
    rw [hr]
    omega
  rw [hsum] at hmaster
  rw [← hd] at hmaster
  rw [hmaster, if_neg (by omega)]

/-- C9: every cell of the rendered grid whose date lies strictly before
start or strictly after the end of the window (the Monday-alignment
padding) is blank regardless of the underlying counts, and every cell whose
date lies inside the window is rendered through the stage selector applied
to that day's stored streak value. -/
theorem C9_padding_blank (counts0 : ℤ → ℕ) (weeks today : ℤ) (r c : ℕ)
    (hr : r < 7) (hc : c < gridCols (today - (weeks * 7 - 1)) today) :
    ((startAligned (today - (weeks * 7 - 1)) + ((7 * c + r : ℕ) : ℤ) <
        today - (weeks * 7 - 1) ∨
      today < startAligned (today - (weeks * 7 - 1)) + ((7 * c + r : ℕ) : ℤ)) →
      cellAt (render_forest counts0 weeks today) r c = " ") ∧
    (today - (weeks * 7 - 1) ≤ startAligned (today - (weeks * 7 - 1)) + ((7 * c + r : ℕ) : ℤ) →
      startAligned (today - (weeks * 7 - 1)) + ((7 * c + r : ℕ) : ℤ) ≤ today →
      cellAt (render_forest counts0 weeks today) r c =
        stage_for_count
          ((streakPass (today - (weeks * 7 - 1)) today counts0
            (startAligned (today - (weeks * 7 - 1)) + ((7 * c + r : ℕ) : ℤ)) : ℤ))) := by
  constructor
  · intro h
    rw [render_forest_cell counts0 weeks today r c hr hc, if_pos h]
  · intro h1 h2
    rw [render_forest_cell counts0 weeks today r c hr hc, if_neg (by omega)]

/-- C9 witness: rendering one week ending Thursday 2024-01-04, the top-left
cell is the padding Monday 2023-12-25, which renders blank even though the
count map is positive everywhere. -/
theorem C9_padding_blank_witness :
    cellAt (render_forest (fun _ => 1) 1 738889) 0 0 = " " :=
  (C9_padding_blank (fun _ => 1) 1 738889 0 0 (by decide) (by decide)).1 (by decide)

/-- C6: for positive weeks, the rendered grid has exactly 7 rows; every row
has exactly ceil of (days from the aligned Monday through today) over 7
cells, where the aligned Monday is the unique Monday at most 6 days before
start = today minus (weeks times 7 minus 1); and every in-window day sits in
the row of its weekday and the column of its offset from the aligned Monday
divided by 7. -/
theorem C6_grid_geometry (counts0 : ℤ → ℕ) (weeks today : ℤ) (hw : 0 < weeks) :
    (render_forest counts0 weeks today).length = 7 ∧
    (∀ row ∈ render_forest counts0 weeks today,
      row.length = gridCols (today - (weeks * 7 - 1)) today) ∧
    weekday (startAligned (today - (weeks * 7 - 1))) = 0 ∧
    startAligned (today - (weeks * 7 - 1)) ≤ today - (weeks * 7 - 1) ∧
    today - (weeks * 7 - 1) - startAligned (today - (weeks * 7 - 1)) < 7 ∧
    ((daysTotal (today - (weeks * 7 - 1)) today : ℤ) =
      today - startAligned (today - (weeks * 7 - 1)) + 1) ∧
    daysTotal (today - (weeks * 7 - 1)) today ≤
      7 * gridCols (today - (weeks * 7 - 1)) today ∧
    7 * gridCols (today - (weeks * 7 - 1)) today <
      daysTotal (today - (weeks * 7 - 1)) today + 7 ∧
    (∀ d : ℤ, today - (weeks * 7 - 1) ≤ d → d ≤ today →
      cellAt (render_forest counts0 weeks today) ((weekday d).toNat)
          ((d - startAligned (today - (weeks * 7 - 1))).toNat / 7) =
        stage_for_count
          ((streakPass (today - (weeks * 7 - 1)) today counts0 d : ℤ))) := by
  have hsa := startAligned_facts (today - (weeks * 7 - 1))
  refine ⟨render_forest_length counts0 weeks today, ?_, hsa.2.2, hsa.1, hsa.2.1, ?_, ?_, ?_, ?_⟩
  · intro row hm
    obtain ⟨i, hi, he⟩ := List.mem_iff_getElem.mp hm
    have h7 : i < 7 := by
      have := render_forest_length counts0 weeks today
      omega
    have hgd : (render_forest counts0 weeks today).getD i [] = row := by
      rw [List.getD_eq_getElem?_getD, List.getElem?_eq_getElem hi]
      exact he
    rw [← hgd]
    exact render_forest_row_length counts0 weeks today i h7
  · unfold daysTotal
    omega
  · unfold gridCols
    omega
  · unfold gridCols
    omega
  · intro d h1 h2
    exact render_forest_day counts0 weeks today d h1 h2

/-- C6 witness: one week ending 2024-01-04 renders a grid of 7 rows. -/
theorem C6_grid_geometry_witness : (render_forest (fun _ => 1) 1 738889).length = 7 :=
  (C6_grid_geometry (fun _ => 1) 1 738889 (by decide)).1

/-- C7: the stage selector is deterministic, two calls with the same
argument return the same symbol (the selector reseeds with the constant
RAND_SEED on every call, so in the embedding it is a pure function of n),
and rendering the same count data with the same reference date twice yields
the identical grid. -/
theorem C7_determinism :
    (∀ n m : ℤ, n = m → stage_for_count n = stage_for_count m) ∧
    (∀ (counts0 : ℤ → ℕ) (weeks today : ℤ) (g1 g2 : List (List String)),
      g1 = render_forest counts0 weeks today →
      g2 = render_forest counts0 weeks today → g1 = g2) := by
  constructor
  · intro n m h
    rw [h]
  · intro c0 w t g1 g2 h1 h2
    rw [h1, h2]

/-- C7 witness: two calls of the stage selector at 3 agree. -/
theorem C7_determinism_witness : stage_for_count 3 = stage_for_count 3 :=
  C7_determinism.1 3 3 rfl

/-- C4: the stage selector returns the fixed empty glyph for every n at
most 0, a symbol of the seed tier at 1, of the sapling tier at 2, of the
tree tier at 3, of the insect tier at 4, and of the animal tier for every n
at least 5; consequently a day inside the window with count 0 always
renders as the empty glyph, never a tier symbol. -/
theorem C4_stage_tiers :
    (∀ n : ℤ, n ≤ 0 → stage_for_count n = ".") ∧
    stage_for_count 1 ∈ SEED_LIST ∧
    stage_for_count 2 ∈ SAPLING_LIST ∧
    stage_for_count 3 ∈ TREE_LIST ∧
    stage_for_count 4 ∈ BUG_LIST ∧
    (∀ n : ℤ, 5 ≤ n → stage_for_count n ∈ WOODLAND_ANIMAL_LIST) ∧
    (∀ (counts0 : ℤ → ℕ) (weeks today d : ℤ),
      today - (weeks * 7 - 1) ≤ d → d ≤ today → counts0 d = 0 →
      cellAt (render_forest counts0 weeks today) ((weekday d).toNat)
        ((d - startAligned (today - (weeks * 7 - 1))).toNat / 7) = ".") := by
  refine ⟨stage_nonpos, ?_, ?_, ?_, ?_, ?_, ?_⟩
  · rw [stage_one]
    exact pyChoice_mem RAND_SEED SEED_LIST (by decide)
  · rw [stage_two]
    exact pyChoice_mem RAND_SEED SAPLING_LIST (by decide)
  · rw [stage_three]
    exact pyChoice_mem RAND_SEED TREE_LIST (by decide)
  · rw [stage_four]
    exact pyChoice_mem RAND_SEED BUG_LIST (by decide)
  · intro n hn
    rw [stage_ge_five n hn]
    exact pyChoice_mem RAND_SEED WOODLAND_ANIMAL_LIST (by decide)
  · intro c0 weeks today d h1 h2 h0
    rw [render_forest_day c0 weeks today d h1 h2,
      streakPass_eq_pure _ _ _ _ h1 h2]
    unfold dayStreakPure
    rw [if_neg (by omega)]
    exact stage_nonpos _ (by norm_num)

/-- C4 witness: a strictly negative streak argument renders the empty
glyph. -/
theorem C4_stage_tiers_witness : stage_for_count (-3) = "." :=
  C4_stage_tiers.1 (-3) (by decide)

/-- C8 counterexample: with weeks = 0 and reference date 2024-01-04, the
renderer does not fail: it silently produces a 7 by 1 grid of blank cells
(the source of render_forest, lines 156 to 211, contains no validation of
weeks and raises no error; the embedding is accordingly total). -/
theorem C8_counterexample_weeks_zero :
    render_forest (fun _ => 1) 0 738889 =
      [[" "], [" "], [" "], [" "], [" "], [" "], [" "]] := by decide

/-- C8 amended: the grid renderer performs no validation of the weeks
parameter; for every weeks at most 0 it silently returns a grid in which
every cell is blank, because the window start lies strictly after its end
so no day of the aligned range is inside the window. -/
theorem C8_no_weeks_validation (counts0 : ℤ → ℕ) (weeks today : ℤ)
    (hw : weeks ≤ 0) (r c : ℕ) :
    cellAt (render_forest counts0 weeks today) r c = " " := by
  by_cases hr : r < 7
  · by_cases hc : c < gridCols (today - (weeks * 7 - 1)) today
    · rw [render_forest_cell counts0 weeks today r c hr hc]
      rw [if_pos (by omega)]
    · unfold cellAt
      rw [getD_of_length_le _ c " " (by rw [render_forest_row_length counts0 weeks today r hr]; omega)]
  · unfold cellAt
    rw [getD_of_length_le _ r [] (by rw [render_forest_length]; omega)]
    rfl

/-- C8 witness: at weeks = 0 the middle-left cell of the produced grid is
blank. -/
theorem C8_no_weeks_validation_witness :
    cellAt (render_forest (fun _ => 1) 0 738889) 3 0 = " " :=
  C8_no_weeks_validation (fun _ => 1) 0 738889 (by decide) 3 0
